import Mathlib

/-!
Shallow embedding of the todo CRUD backend of `simple-todo-app-dd83`.

Source files embedded:
- `src/server/src/schema.ts` — zod input schemas (`createTodoInputSchema`,
  `updateTodoInputSchema`, `deleteTodoInputSchema`, `getTodoInputSchema`).
- `src/server/src/handlers/create_todo.ts` — `createTodo`.
- `src/server/src/handlers/update_todo.ts` — the real `updateTodo`
  (lines 21-54 of the file) and `deleteTodo` (lines 59-72).
- `src/unnamed/part_003` — `getTodo`.
- `getTodos` is modelled from the spec (its handler source is absent; only
  its test, `src/unnamed/part_002`, is present).

Modelling conventions: the database table is a list of rows plus the serial
id counter; timestamps are natural numbers and the wall clock is an explicit
`now` argument (`new Date()` / the database `now()` default); a TypeScript
optional-and-nullable field is `Option (Option _)`, with `none` for an
omitted field (`undefined`), `some none` for explicit `null`, and
`some (some v)` for a present value `v`.
-/

namespace TodoApp

/-- A persisted todo row, the `todoSchema` shape of `schema.ts`:
`description` is nullable (`none` is SQL null). -/
structure Todo where
  id : Int
  title : String
  description : Option String
  completed : Bool
  created_at : Nat
  updated_at : Nat
deriving Repr, DecidableEq

/-- Input shape of `createTodoInputSchema`: required `title`, optional and
nullable `description`. -/
structure CreateTodoInput where
  title : String
  description : Option (Option String)
deriving Repr, DecidableEq

/-- Input shape of `updateTodoInputSchema`: required `id`; `title`,
`description`, `completed` each optional, `description` also nullable. -/
structure UpdateTodoInput where
  id : Int
  title : Option String
  description : Option (Option String)
  completed : Option Bool
deriving Repr, DecidableEq

/-- Input shape of `deleteTodoInputSchema`. -/
structure DeleteTodoInput where
  id : Int
deriving Repr, DecidableEq

/-- Input shape of `getTodoInputSchema`. -/
structure GetTodoInput where
  id : Int
deriving Repr, DecidableEq

/-- The `todos` table plus the serial primary-key counter of the store. -/
structure Store where
  todos : List Todo
  nextId : Int
deriving Repr, DecidableEq

/-- The empty table; serial ids start at 1. -/
def Store.empty : Store := { todos := [], nextId := 1 }

/-- Validation of `createTodoInputSchema`: `title` carries `min(1)`;
`description` is unconstrained (any string, including the empty one). -/
def createInputValid (input : CreateTodoInput) : Bool :=
  1 ≤ input.title.length

/-- Validation of `updateTodoInputSchema`: an optional `title` carries
`min(1)`; `description` and `completed` are unconstrained. -/
def updateInputValid (input : UpdateTodoInput) : Bool :=
  match input.title with
  | some v => 1 ≤ v.length
  | none => true

/-- The JavaScript expression `input.description || null` of
`create_todo.ts` line 11: `undefined`, `null` and the empty string are all
falsy, so each of them yields SQL null. -/
def descriptionOrNull : Option (Option String) → Option String
  | some (some d) => if d = "" then none else some d
  | some none => none
  | none => none

/-- Handler `createTodo` of `create_todo.ts`: inserts one row with the given
title, `input.description || null`, `completed` false, and both timestamps
set by the database default to the current time; returns the inserted row
(`result[0]`) together with the new store state. -/
def createTodo (s : Store) (input : CreateTodoInput) (now : Nat) : Todo × Store :=
  let row : Todo :=
    { id := s.nextId
      title := input.title
      description := descriptionOrNull input.description
      completed := false
      created_at := now
      updated_at := now }
  (row, { todos := s.todos ++ [row], nextId := s.nextId + 1 })

/-- The `updateData` merge of `update_todo.ts` lines 24-39 applied to one
row: each of `title`, `description`, `completed` is overwritten only when it
is present (not `undefined`) in the input, and `updated_at` is always set to
the current time. -/
def applyUpdate (input : UpdateTodoInput) (now : Nat) (t : Todo) : Todo :=
  { t with
    title := match input.title with | some v => v | none => t.title
    description := match input.description with | some v => v | none => t.description
    completed := match input.completed with | some v => v | none => t.completed
    updated_at := now }

/-- Handler `updateTodo` of `update_todo.ts` lines 21-54:
`UPDATE todos SET updateData WHERE id = input.id RETURNING`, then
`result.length > 0 ? result[0] : null`. -/
def updateTodo (s : Store) (input : UpdateTodoInput) (now : Nat) : Option Todo × Store :=
  let updated := s.todos.map fun t => if t.id = input.id then applyUpdate input now t else t
  let returned := updated.filter fun t => t.id == input.id
  (returned.head?, { s with todos := updated })

/-- Handler `deleteTodo` of `update_todo.ts` lines 59-72:
`DELETE FROM todos WHERE id = input.id`; `rowCount` is the number of rows
removed and the handler returns `rowCount > 0`. -/
def deleteTodo (s : Store) (input : DeleteTodoInput) : Bool × Store :=
  let rowCount := (s.todos.filter fun t => t.id == input.id).length
  (decide (0 < rowCount), { s with todos := s.todos.filter fun t => !(t.id == input.id) })

/-- Handler `getTodo` of `src/unnamed/part_003`:
`SELECT * FROM todos WHERE id = input.id`, then
`results.length > 0 ? results[0] : null`. The store is not modified. -/
def getTodo (s : Store) (input : GetTodoInput) : Option Todo :=
  (s.todos.filter fun t => t.id == input.id).head?

/-- Insert a row into a list already sorted newest-created first, keeping
that order. -/
def insertByNewest (t : Todo) : List Todo → List Todo
  | [] => [t]
  | u :: us => if u.created_at ≤ t.created_at then t :: u :: us else u :: insertByNewest t us

/-- Sort rows newest-created first (descending `created_at`). -/
def sortByNewest : List Todo → List Todo
  | [] => []
  | t :: ts => insertByNewest t (sortByNewest ts)

/-- Modelled from the spec: the `getTodos` handler source is missing from
the repository snapshot (only its test is present). Spec 4.4: returns all
rows, ordered newest-created first (descending by `created_at`), and the
empty sequence when the store is empty. -/
def getTodos (s : Store) : List Todo :=
  sortByNewest s.todos

/-- The wall clock never runs behind a timestamp already stored. -/
def timeOk (s : Store) (now : Nat) : Prop :=
  ∀ t ∈ s.todos, t.created_at ≤ now ∧ t.updated_at ≤ now

/-- Store states reachable from the empty table by handler calls under a
non-decreasing clock. -/
inductive Reachable : Store → Prop
  | empty : Reachable Store.empty
  | create {s : Store} (input : CreateTodoInput) (now : Nat) :
      Reachable s → timeOk s now → Reachable (createTodo s input now).2
  | update {s : Store} (input : UpdateTodoInput) (now : Nat) :
      Reachable s → timeOk s now → Reachable (updateTodo s input now).2
  | delete {s : Store} (input : DeleteTodoInput) :
      Reachable s → Reachable (deleteTodo s input).2

/-- Structural invariant of the store: the id counter is positive, every
row's id is positive and below the counter, ids are pairwise distinct, and
every row satisfies `created_at ≤ updated_at`. -/
def StoreInv (s : Store) : Prop :=
  0 < s.nextId ∧
  (∀ t ∈ s.todos, 0 < t.id ∧ t.id < s.nextId) ∧
  (s.todos.map Todo.id).Nodup ∧
  (∀ t ∈ s.todos, t.created_at ≤ t.updated_at)

theorem applyUpdate_id (input : UpdateTodoInput) (now : Nat) (t : Todo) :
    (applyUpdate input now t).id = t.id := rfl

theorem applyUpdate_created_at (input : UpdateTodoInput) (now : Nat) (t : Todo) :
    (applyUpdate input now t).created_at = t.created_at := rfl

theorem applyUpdate_updated_at (input : UpdateTodoInput) (now : Nat) (t : Todo) :
    (applyUpdate input now t).updated_at = now := rfl

theorem insertByNewest_perm (t : Todo) (l : List Todo) :
    (insertByNewest t l).Perm (t :: l) := by
  induction l with
  | nil => simp [insertByNewest]
  | cons u us ih =>
    by_cases h : u.created_at ≤ t.created_at
    · simp [insertByNewest, h]
    · simp only [insertByNewest, if_neg h]
      exact (ih.cons u).trans (List.Perm.swap t u us)

theorem insertByNewest_pairwise {t : Todo} {l : List Todo}
    (h : List.Pairwise (fun a b => b.created_at ≤ a.created_at) l) :
    List.Pairwise (fun a b => b.created_at ≤ a.created_at) (insertByNewest t l) := by
  induction l with
  | nil => simp [insertByNewest]
  | cons u us ih =>
    rcases List.pairwise_cons.mp h with ⟨hu, hus⟩
    by_cases hle : u.created_at ≤ t.created_at
    · simp only [insertByNewest, if_pos hle]
      refine List.pairwise_cons.mpr ⟨?_, h⟩
      intro b hb
      rcases List.mem_cons.mp hb with rfl | hb
      · exact hle
      · exact le_trans (hu b hb) hle
    · simp only [insertByNewest, if_neg hle]
      refine List.pairwise_cons.mpr ⟨?_, ih hus⟩
      intro b hb
      have hb2 : b ∈ t :: us := (insertByNewest_perm t us).mem_iff.mp hb
      rcases List.mem_cons.mp hb2 with rfl | hb2
      · exact le_of_not_le hle
      · exact hu b hb2

theorem sortByNewest_perm (l : List Todo) : (sortByNewest l).Perm l := by
  induction l with
  | nil => simp [sortByNewest]
  | cons t ts ih => exact (insertByNewest_perm t (sortByNewest ts)).trans (ih.cons t)

theorem sortByNewest_pairwise (l : List Todo) :
    List.Pairwise (fun a b => b.created_at ≤ a.created_at) (sortByNewest l) := by
  induction l with
  | nil => simp [sortByNewest]
  | cons t ts ih => exact insertByNewest_pairwise ih

theorem storeInv_empty : StoreInv Store.empty := by
  refine ⟨by decide, ?_, ?_, ?_⟩ <;> simp [Store.empty]

theorem storeInv_create (s : Store) (input : CreateTodoInput) (now : Nat)
    (h : StoreInv s) : StoreInv (createTodo s input now).2 := by
  obtain ⟨hpos, hrange, hnodup, hts⟩ := h
  refine ⟨?_, ?_, ?_, ?_⟩
  · simp only [createTodo]
    omega
  · intro t ht
    simp only [createTodo, List.mem_append, List.mem_singleton] at ht ⊢
    rcases ht with ht | rfl
    · exact ⟨(hrange t ht).1, by have := (hrange t ht).2; omega⟩
    · refine ⟨hpos, ?_⟩
      show s.nextId < s.nextId + 1
      omega
  · simp only [createTodo, List.map_append, List.map_cons, List.map_nil,
      List.nodup_append]
    refine ⟨hnodup, List.nodup_singleton _, ?_⟩
    intro a ha hmem
    simp only [List.mem_singleton] at hmem
    subst hmem
    rcases List.mem_map.mp ha with ⟨t, ht, hid⟩
    have := (hrange t ht).2
    omega
  · intro t ht
    simp only [createTodo, List.mem_append, List.mem_singleton] at ht
    rcases ht with ht | rfl
    · exact hts t ht
    · exact le_refl now

theorem storeInv_update (s : Store) (input : UpdateTodoInput) (now : Nat)
    (h : StoreInv s) (hclk : timeOk s now) : StoreInv (updateTodo s input now).2 := by
  obtain ⟨hpos, hrange, hnodup, hts⟩ := h
  have hid : ∀ t : Todo,
      (if t.id = input.id then applyUpdate input now t else t).id = t.id := by
    intro t
    by_cases hc : t.id = input.id <;> simp [hc, applyUpdate_id]
  refine ⟨hpos, ?_, ?_, ?_⟩
  · intro t ht
    simp only [updateTodo, List.mem_map] at ht
    rcases ht with ⟨u, hu, rfl⟩
    simp only [updateTodo]
    rw [hid u]
    exact hrange u hu
  · simp only [updateTodo, List.map_map]
    have : (s.todos.map (Todo.id ∘ fun t =>
        if t.id = input.id then applyUpdate input now t else t)) = s.todos.map Todo.id :=
      List.map_congr_left (fun t _ => hid t)
    rw [this]
    exact hnodup
  · intro t ht
    simp only [updateTodo, List.mem_map] at ht
    rcases ht with ⟨u, hu, rfl⟩
    by_cases hc : u.id = input.id
    · simp only [if_pos hc, applyUpdate_created_at, applyUpdate_updated_at]
      exact (hclk u hu).1
    · simp only [if_neg hc]
      exact hts u hu

theorem storeInv_delete (s : Store) (input : DeleteTodoInput) (h : StoreInv s) :
    StoreInv (deleteTodo s input).2 := by
  obtain ⟨hpos, hrange, hnodup, hts⟩ := h
  refine ⟨hpos, ?_, ?_, ?_⟩
  · intro t ht
    exact hrange t (List.mem_of_mem_filter ht)
  · simp only [deleteTodo]
    exact ((List.filter_sublist s.todos).map Todo.id).nodup hnodup
  · intro t ht
    exact hts t (List.mem_of_mem_filter ht)

theorem reachable_storeInv {s : Store} (h : Reachable s) : StoreInv s := by
  induction h with
  | empty => exact storeInv_empty
  | create input now hr htime ih => exact storeInv_create _ input now ih
  | update input now hr htime ih => exact storeInv_update _ input now ih htime
  | delete input hr ih => exact storeInv_delete _ input ih

theorem applyUpdate_mem_updateTodo (s : Store) (input : UpdateTodoInput) (now : Nat)
    {t : Todo} (hmem : t ∈ s.todos) (hid : t.id = input.id) :
    applyUpdate input now t ∈ (updateTodo s input now).2.todos := by
  simp only [updateTodo]
  exact List.mem_map.mpr ⟨t, hmem, by rw [if_pos hid]⟩

/-- C1: for an update of an existing todo, each of title, description and
completed is written only when explicitly present in the input; an omitted
field keeps its stored value, an explicit null description clears it, and
id and created_at are untouched; the merged row is what gets stored. -/
theorem updateTodo_partial_merge (s : Store) (input : UpdateTodoInput) (now : Nat)
    (t : Todo) (hmem : t ∈ s.todos) (hid : t.id = input.id) :
    applyUpdate input now t ∈ (updateTodo s input now).2.todos ∧
    (∀ v, input.title = some v → (applyUpdate input now t).title = v) ∧
    (input.title = none → (applyUpdate input now t).title = t.title) ∧
    (∀ d, input.description = some d → (applyUpdate input now t).description = d) ∧
    (input.description = some none → (applyUpdate input now t).description = none) ∧
    (input.description = none → (applyUpdate input now t).description = t.description) ∧
    (∀ b, input.completed = some b → (applyUpdate input now t).completed = b) ∧
    (input.completed = none → (applyUpdate input now t).completed = t.completed) ∧
    (applyUpdate input now t).id = t.id ∧
    (applyUpdate input now t).created_at = t.created_at := by
  refine ⟨applyUpdate_mem_updateTodo s input now hmem hid,
    ?_, ?_, ?_, ?_, ?_, ?_, ?_, rfl, rfl⟩
  · intro v hv; simp [applyUpdate, hv]
  · intro hv; simp [applyUpdate, hv]
  · intro d hd; simp [applyUpdate, hd]
  · intro hd; simp [applyUpdate, hd]
  · intro hd; simp [applyUpdate, hd]
  · intro b hb; simp [applyUpdate, hb]
  · intro hb; simp [applyUpdate, hb]

theorem updateTodo_partial_merge_witness :
    (applyUpdate { id := 1, title := none, description := some none, completed := some true } 5
      (createTodo Store.empty { title := "Test", description := some (some "Original") } 0).1).description
      = none ∧
    (applyUpdate { id := 1, title := none, description := some none, completed := some true } 5
      (createTodo Store.empty { title := "Test", description := some (some "Original") } 0).1).title
      = "Test" := by
  have h := updateTodo_partial_merge
    (createTodo Store.empty { title := "Test", description := some (some "Original") } 0).2
    { id := 1, title := none, description := some none, completed := some true } 5
    (createTodo Store.empty { title := "Test", description := some (some "Original") } 0).1
    (by decide) (by decide)
  exact ⟨h.2.2.2.2.1 rfl, h.2.2.1 rfl⟩

/-- C3: for an existing row the update handler sets updated_at to the
current time no matter which optional fields the input carries; when the
clock has advanced past the row's previous updated_at the new value is
strictly greater; an update carrying only completed leaves title and
description unchanged. -/
theorem updateTodo_refreshes_updated_at (s : Store) (input : UpdateTodoInput) (now : Nat)
    (t : Todo) (hmem : t ∈ s.todos) (hid : t.id = input.id)
    (hclk : t.updated_at < now) :
    applyUpdate input now t ∈ (updateTodo s input now).2.todos ∧
    (applyUpdate input now t).updated_at = now ∧
    t.updated_at < (applyUpdate input now t).updated_at ∧
    (input.title = none → (applyUpdate input now t).title = t.title) ∧
    (input.description = none → (applyUpdate input now t).description = t.description) := by
  refine ⟨applyUpdate_mem_updateTodo s input now hmem hid, rfl, hclk, ?_, ?_⟩
  · intro hv; simp [applyUpdate, hv]
  · intro hd; simp [applyUpdate, hd]

theorem updateTodo_refreshes_updated_at_witness :
    (applyUpdate { id := 1, title := none, description := none, completed := some true } 7
      (createTodo Store.empty { title := "t", description := none } 0).1).updated_at = 7 ∧
    (applyUpdate { id := 1, title := none, description := none, completed := some true } 7
      (createTodo Store.empty { title := "t", description := none } 0).1).title = "t" := by
  have h := updateTodo_refreshes_updated_at
    (createTodo Store.empty { title := "t", description := none } 0).2
    { id := 1, title := none, description := none, completed := some true } 7
    (createTodo Store.empty { title := "t", description := none } 0).1
    (by decide) (by decide) (by decide)
  exact ⟨h.2.1, h.2.2.2.1 rfl⟩

/-- C5: updating a non-existent id returns null, creates no row, and leaves
the store state unchanged. -/
theorem updateTodo_missing_id (s : Store) (input : UpdateTodoInput) (now : Nat)
    (habs : ∀ t ∈ s.todos, t.id ≠ input.id) :
    (updateTodo s input now).1 = none ∧ (updateTodo s input now).2 = s := by
  have hmap : (s.todos.map fun t => if t.id = input.id then applyUpdate input now t else t)
      = s.todos := by
    have h1 : (s.todos.map fun t => if t.id = input.id then applyUpdate input now t else t)
        = s.todos.map id :=
      List.map_congr_left (fun t ht => by rw [if_neg (habs t ht)]; rfl)
    rw [h1, List.map_id]
  have hfil : (s.todos.filter fun t => t.id == input.id) = [] :=
    List.filter_eq_nil_iff.mpr (fun t ht => by
      simp only [beq_iff_eq]
      exact habs t ht)
  constructor
  · simp [updateTodo, hmap, hfil]
  · simp [updateTodo, hmap]

theorem updateTodo_missing_id_witness :
    (updateTodo (createTodo Store.empty { title := "t", description := none } 0).2
      { id := 999, title := some "x", description := none, completed := none } 3).1 = none ∧
    (updateTodo (createTodo Store.empty { title := "t", description := none } 0).2
      { id := 999, title := some "x", description := none, completed := none } 3).2 =
      (createTodo Store.empty { title := "t", description := none } 0).2 :=
  updateTodo_missing_id (createTodo Store.empty { title := "t", description := none } 0).2
    { id := 999, title := some "x", description := none, completed := none } 3
    (by decide)

/-- C2 counterexample: the valid create input supplying the empty string as
description does not get the supplied value stored; the handler expression
`input.description || null` coerces the empty string to null. -/
theorem createTodo_empty_description_counterexample :
    createInputValid { title := "a", description := some (some "") } = true ∧
    (createTodo Store.empty { title := "a", description := some (some "") } 0).1.description
      ≠ some "" ∧
    (createTodo Store.empty { title := "a", description := some (some "") } 0).1.description
      = none := by
  decide

/-- C2 (amended): every created row has completed false, both timestamps
equal to the current time, the store-assigned id, and the given title; the
stored description is the supplied string when it is non-empty, and null
when the description was omitted, explicitly null, or the empty string; the
returned row is the one persisted. -/
theorem createTodo_spec (s : Store) (input : CreateTodoInput) (now : Nat) :
    (createTodo s input now).1.completed = false ∧
    (createTodo s input now).1.created_at = now ∧
    (createTodo s input now).1.updated_at = now ∧
    (createTodo s input now).1.id = s.nextId ∧
    (createTodo s input now).1.title = input.title ∧
    (createTodo s input now).1 ∈ (createTodo s input now).2.todos ∧
    (input.description = none → (createTodo s input now).1.description = none) ∧
    (input.description = some none → (createTodo s input now).1.description = none) ∧
    (∀ d, d ≠ "" → input.description = some (some d) →
      (createTodo s input now).1.description = some d) ∧
    (input.description = some (some "") → (createTodo s input now).1.description = none) := by
  refine ⟨rfl, rfl, rfl, rfl, rfl, ?_, ?_, ?_, ?_, ?_⟩
  · simp [createTodo]
  · intro h; simp [createTodo, descriptionOrNull, h]
  · intro h; simp [createTodo, descriptionOrNull, h]
  · intro d hd h; simp [createTodo, descriptionOrNull, h, hd]
  · intro h; simp [createTodo, descriptionOrNull, h]

theorem createTodo_spec_witness :
    (createTodo Store.empty { title := "Minimal Todo", description := none } 3).1.completed
      = false ∧
    (createTodo Store.empty { title := "Minimal Todo", description := none } 3).1.description
      = none ∧
    (createTodo Store.empty { title := "Minimal Todo", description := none } 3).1.created_at
      = (createTodo Store.empty { title := "Minimal Todo", description := none } 3).1.updated_at := by
  have h := createTodo_spec Store.empty { title := "Minimal Todo", description := none } 3
  exact ⟨h.1, h.2.2.2.2.2.2.1 rfl, h.2.1.trans h.2.2.1.symm⟩

/-- C4: delete returns true exactly when a row with the given id existed;
deleting a non-existent id returns false and leaves the store (hence the
row count) unchanged; after a delete a get for that id returns null; rows
with other ids survive untouched. -/
theorem deleteTodo_spec (s : Store) (input : DeleteTodoInput) :
    ((deleteTodo s input).1 = true ↔ ∃ t ∈ s.todos, t.id = input.id) ∧
    ((∀ t ∈ s.todos, t.id ≠ input.id) →
      (deleteTodo s input).1 = false ∧ (deleteTodo s input).2 = s) ∧
    getTodo (deleteTodo s input).2 { id := input.id } = none ∧
    (∀ t ∈ s.todos, t.id ≠ input.id → t ∈ (deleteTodo s input).2.todos) := by
  refine ⟨?_, ?_, ?_, ?_⟩
  · simp only [deleteTodo, decide_eq_true_eq, List.length_pos_iff_exists_mem,
      List.mem_filter, beq_iff_eq]
  · intro habs
    have hfil : (s.todos.filter fun t => t.id == input.id) = [] :=
      List.filter_eq_nil_iff.mpr (fun t ht => by
        simp only [beq_iff_eq]
        exact habs t ht)
    have hkeep : (s.todos.filter fun t => !(t.id == input.id)) = s.todos :=
      List.filter_eq_self.mpr (fun t ht => by
        simp only [Bool.not_eq_true', beq_eq_false_iff_ne]
        exact habs t ht)
    exact ⟨by simp [deleteTodo, hfil], by simp [deleteTodo, hkeep]⟩
  · have hfil : (((deleteTodo s input).2.todos).filter fun t => t.id == input.id) = [] := by
      apply List.filter_eq_nil_iff.mpr
      intro t ht
      have h2 := (List.mem_filter.mp ht).2
      simp only [Bool.not_eq_true', beq_eq_false_iff_ne] at h2
      simp only [beq_iff_eq]
      exact h2
    simp [getTodo, hfil]
  · intro t ht hne
    simp only [deleteTodo]
    refine List.mem_filter.mpr ⟨ht, ?_⟩
    simp only [Bool.not_eq_true', beq_eq_false_iff_ne]
    exact hne

theorem deleteTodo_spec_witness :
    (deleteTodo (createTodo Store.empty { title := "t", description := none } 0).2
      { id := 1 }).1 = true ∧
    getTodo (deleteTodo (createTodo Store.empty { title := "t", description := none } 0).2
      { id := 1 }).2 { id := 1 } = none ∧
    (deleteTodo Store.empty { id := 5 }).1 = false ∧
    (deleteTodo Store.empty { id := 5 }).2 = Store.empty := by
  have h1 := deleteTodo_spec (createTodo Store.empty { title := "t", description := none } 0).2
    { id := 1 }
  have h2 := deleteTodo_spec Store.empty { id := 5 }
  have habs : ∀ t ∈ Store.empty.todos, t.id ≠ (5 : Int) := by decide
  refine ⟨h1.1.mpr ⟨(createTodo Store.empty { title := "t", description := none } 0).1,
    by decide, by decide⟩, h1.2.2.1, (h2.2.1 habs).1, (h2.2.1 habs).2⟩

/-- C6: get returns the stored row when a todo with the given id exists and
null otherwise; in every reachable store state a non-positive id or an id
never created yields null, and the operation is a pure function of the
store with no side effects. -/
theorem getTodo_spec (s : Store) (hr : Reachable s) (input : GetTodoInput) :
    (input.id ≤ 0 → getTodo s input = none) ∧
    ((∀ t ∈ s.todos, t.id ≠ input.id) → getTodo s input = none) ∧
    (∀ t ∈ s.todos, t.id = input.id → getTodo s input = some t) := by
  obtain ⟨hpos, hrange, hnodup, hts⟩ := reachable_storeInv hr
  refine ⟨?_, ?_, ?_⟩
  · intro hle
    have hfil : (s.todos.filter fun t => t.id == input.id) = [] := by
      apply List.filter_eq_nil_iff.mpr
      intro t ht
      simp only [beq_iff_eq]
      intro hEq
      have hpt := (hrange t ht).1
      omega
    simp [getTodo, hfil]
  · intro habs
    have hfil : (s.todos.filter fun t => t.id == input.id) = [] := by
      apply List.filter_eq_nil_iff.mpr
      intro t ht
      simp only [beq_iff_eq]
      exact habs t ht
    simp [getTodo, hfil]
  · intro t ht hid
    have htf : t ∈ s.todos.filter fun u => u.id == input.id :=
      List.mem_filter.mpr ⟨ht, by simp [hid]⟩
    cases hfil : s.todos.filter fun u => u.id == input.id with
    | nil => rw [hfil] at htf; cases htf
    | cons u us =>
      have hu : u ∈ s.todos.filter fun v => v.id == input.id := by
        rw [hfil]
        exact List.mem_cons_self u us
      have humem : u ∈ s.todos := List.mem_of_mem_filter hu
      have huid : u.id = input.id := by
        have hb := (List.mem_filter.mp hu).2
        simpa using hb
      have hut : u = t := List.inj_on_of_nodup_map hnodup humem ht (by rw [huid, hid])
      simp [getTodo, hfil, hut]

theorem getTodo_spec_witness :
    getTodo (createTodo Store.empty { title := "t", description := none } 0).2
      { id := -1 } = none ∧
    getTodo (createTodo Store.empty { title := "t", description := none } 0).2
      { id := 999 } = none ∧
    getTodo (createTodo Store.empty { title := "t", description := none } 0).2
      { id := 1 } = some (createTodo Store.empty { title := "t", description := none } 0).1 := by
  have hreach : Reachable (createTodo Store.empty { title := "t", description := none } 0).2 :=
    Reachable.create { title := "t", description := none } 0 Reachable.empty
      (fun t ht => absurd ht (List.not_mem_nil t))
  exact ⟨(getTodo_spec _ hreach { id := -1 }).1 (by decide),
    (getTodo_spec _ hreach { id := 999 }).2.1 (by decide),
    (getTodo_spec _ hreach { id := 1 }).2.2 _ (by decide) (by decide)⟩

/-- C7: the list operation returns a permutation of every stored todo,
ordered newest-created first (descending by created_at), the empty sequence
on the empty store, and three todos inserted in sequence come back newest
first. The getTodos handler is modelled from the spec because its source
file is absent from the snapshot. -/
theorem getTodos_spec (s : Store) :
    (getTodos s).Perm s.todos ∧
    List.Pairwise (fun a b => b.created_at ≤ a.created_at) (getTodos s) ∧
    (s.todos = [] → getTodos s = []) ∧
    (getTodos (createTodo (createTodo (createTodo Store.empty
        { title := "first", description := none } 0).2
        { title := "second", description := none } 1).2
        { title := "third", description := none } 2).2).map Todo.title =
      ["third", "second", "first"] := by
  refine ⟨sortByNewest_perm s.todos, sortByNewest_pairwise s.todos, ?_, by decide⟩
  intro h
  simp [getTodos, h, sortByNewest]

theorem getTodos_spec_witness :
    getTodos Store.empty = [] :=
  (getTodos_spec Store.empty).2.2.1 rfl

/-- C8 counterexample: create conflates an empty-string description with an
absent one — the two inputs give identical stores and rows, both storing
null, even though the empty string and null are distinct values — so the
create operation does not preserve the claimed distinction. -/
theorem create_conflates_empty_and_absent :
    createTodo Store.empty { title := "a", description := some (some "") } 0 =
      createTodo Store.empty { title := "a", description := none } 0 ∧
    some "" ≠ (none : Option String) := by
  decide

/-- C8 (amended): every stored description is a string or explicitly null;
the update operation keeps an explicit empty string, an explicit null and
an omitted description distinct (verbatim write, clear, and no-op on the
stored value respectively), and the merged row is stored; the create
operation however coerces an empty-string input description to null. -/
theorem description_distinction (s : Store) (input : UpdateTodoInput) (now : Nat)
    (t : Todo) (hmem : t ∈ s.todos) (hid : t.id = input.id) :
    (t.description = none ∨ ∃ d, t.description = some d) ∧
    applyUpdate input now t ∈ (updateTodo s input now).2.todos ∧
    (input.description = some (some "") → (applyUpdate input now t).description = some "") ∧
    (input.description = some none → (applyUpdate input now t).description = none) ∧
    (input.description = none → (applyUpdate input now t).description = t.description) ∧
    (∀ c : CreateTodoInput, c.description = some (some "") →
      (createTodo s c now).1.description = none) := by
  refine ⟨?_, applyUpdate_mem_updateTodo s input now hmem hid, ?_, ?_, ?_, ?_⟩
  · cases hdesc : t.description with
    | none => exact Or.inl rfl
    | some d => exact Or.inr ⟨d, rfl⟩
  · intro h; simp [applyUpdate, h]
  · intro h; simp [applyUpdate, h]
  · intro h; simp [applyUpdate, h]
  · intro c hc; simp [createTodo, descriptionOrNull, hc]

theorem description_distinction_witness :
    (applyUpdate { id := 1, title := none, description := some (some ""), completed := none } 4
      (createTodo Store.empty { title := "t", description := some (some "x") } 0).1).description
      = some "" ∧
    (applyUpdate { id := 1, title := none, description := some none, completed := none } 4
      (createTodo Store.empty { title := "t", description := some (some "x") } 0).1).description
      = none := by
  have h1 := description_distinction
    (createTodo Store.empty { title := "t", description := some (some "x") } 0).2
    { id := 1, title := none, description := some (some ""), completed := none } 4
    (createTodo Store.empty { title := "t", description := some (some "x") } 0).1
    (by decide) (by decide)
  have h2 := description_distinction
    (createTodo Store.empty { title := "t", description := some (some "x") } 0).2
    { id := 1, title := none, description := some none, completed := none } 4
    (createTodo Store.empty { title := "t", description := some (some "x") } 0).1
    (by decide) (by decide)
  exact ⟨h1.2.2.1 rfl, h2.2.2.2.1 rfl⟩

/-- C9: in every store state reachable under a non-decreasing clock, every
todo satisfies created_at ≤ updated_at; creation gives both timestamp
fields the same current time. -/
theorem created_le_updated_invariant (s : Store) (hr : Reachable s) :
    (∀ t ∈ s.todos, t.created_at ≤ t.updated_at) ∧
    (∀ input now, (createTodo s input now).1.created_at =
      (createTodo s input now).1.updated_at) :=
  ⟨(reachable_storeInv hr).2.2.2, fun _ _ => rfl⟩

theorem created_le_updated_invariant_witness :
    ({ id := 1, title := "t", description := none, completed := true,
       created_at := 0, updated_at := 5 } : Todo).created_at ≤
    ({ id := 1, title := "t", description := none, completed := true,
       created_at := 0, updated_at := 5 } : Todo).updated_at :=
  (created_le_updated_invariant _
    (Reachable.update { id := 1, title := none, description := none, completed := some true } 5
      (Reachable.create { title := "t", description := none } 0 Reachable.empty
        (fun t ht => absurd ht (List.not_mem_nil t)))
      (by
        intro t ht
        simp only [createTodo, Store.empty, List.nil_append, List.mem_singleton] at ht
        subst ht
        exact ⟨by decide, by decide⟩))).1 _ (by decide)

/-- C10: with an explicit empty-string description, create and update
diverge: create stores null (the handler coerces any falsy description to
null) while update writes the empty string verbatim; validation accepts the
empty-string description for both operations since only title carries a
minimum-length constraint. -/
theorem empty_description_asymmetry (s : Store) (input : UpdateTodoInput) (now : Nat)
    (t : Todo) (hmem : t ∈ s.todos) (hid : t.id = input.id)
    (hdesc : input.description = some (some "")) :
    (∀ c : CreateTodoInput, c.description = some (some "") →
      (createTodo s c now).1.description = none) ∧
    (applyUpdate input now t).description = some "" ∧
    applyUpdate input now t ∈ (updateTodo s input now).2.todos ∧
    (∀ c : CreateTodoInput, c.description = some (some "") →
      (createInputValid c = true ↔ 1 ≤ c.title.length)) ∧
    (∀ i : Int,
      updateInputValid { id := i, title := none, description := some (some ""), completed := none } = true) := by
  refine ⟨?_, ?_, applyUpdate_mem_updateTodo s input now hmem hid, ?_, ?_⟩
  · intro c hc; simp [createTodo, descriptionOrNull, hc]
  · simp [applyUpdate, hdesc]
  · intro c hc; simp [createInputValid]
  · intro i; simp [updateInputValid]

theorem empty_description_asymmetry_witness :
    (createTodo Store.empty { title := "b", description := some (some "") } 4).1.description
      = none ∧
    (applyUpdate { id := 1, title := none, description := some (some ""), completed := none } 4
      (createTodo Store.empty { title := "b", description := some (some "x") } 0).1).description
      = some "" := by
  have h := empty_description_asymmetry
    (createTodo Store.empty { title := "b", description := some (some "x") } 0).2
    { id := 1, title := none, description := some (some ""), completed := none } 4
    (createTodo Store.empty { title := "b", description := some (some "x") } 0).1
    (by decide) (by decide) rfl
  exact ⟨h.1 { title := "b", description := some (some "") } rfl, h.2.1⟩

end TodoApp
